import Mathlib

/-!
Verification of the Token placeable-object core
(src/resources/app/client/pixi/placeables/token.js).

The development shallowly embeds the position tracker, the light and
vision source registry, the animation rotation and duration logic, the
collision entry point and the targeting system of the Token class.
JavaScript numbers are modelled as rationals, the shared canvas-wide
source indices as association lists with JS-Map semantics, and the
per-user target sets as insertion-ordered duplicate-free lists.
External collaborators that are not part of the analysed source (the
collision oracle, Math.hypot, the walls quadtree, Ray.fromAngle) are
modelled as parameters or from the wording of the specification, and
each such definition says so in its doc comment.
-/

namespace Foundry

/-- Sign of a rational number as JavaScript Math.sign produces it
(with both zeroes collapsed to 0), returned as an integer. -/
def jsSign (q : ℚ) : ℤ :=
  if q < 0 then -1 else if 0 < q then 1 else 0

/-- Rounding to the nearest integer, half rounding up.  Modelled from
the spec: Math.roundFast is an external Foundry helper which the spec
describes as rounding the point to the nearest integer coordinate. -/
def jsRound (q : ℚ) : ℤ := ⌊q + 1/2⌋

/-- Clamping of a number into an interval, as Math.clamped does. -/
def jsClamped (v lo hi : ℚ) : ℚ := min (max v lo) hi

/-- Inclusive band test.  Modelled from the spec: Number#between is an
external Foundry helper; the spec says the scene darkness level must
fall within the configured [min,max] darkness band, bounds included. -/
def jsBetween (x lo hi : ℚ) : Bool := decide (lo ≤ x ∧ x ≤ hi)

/-- A 2D point with rational coordinates. -/
structure Pt where
  x : ℚ
  y : ℚ
deriving DecidableEq

/-- The fast planar orientation test foundry.utils.orient2dFast:
(a.y - c.y) * (b.x - c.x) - (a.x - c.x) * (b.y - c.y). -/
def orient2dFast (a b c : Pt) : ℚ :=
  (a.y - c.y) * (b.x - c.x) - (a.x - c.x) * (b.y - c.y)

/-- A wall segment of the scene, given by its two endpoints. -/
structure Wall where
  a : Pt
  b : Pt
deriving DecidableEq

/-- Whether a wall segment passes exactly through the integer point
(x, y): the point is collinear with the wall (orient2dFast = 0) and
lies inside the wall bounding box. -/
def wallContains (w : Wall) (x y : ℤ) : Bool :=
  decide (orient2dFast w.a w.b ⟨(x : ℚ), (y : ℚ)⟩ = 0
    ∧ min w.a.x w.b.x ≤ (x : ℚ) ∧ (x : ℚ) ≤ max w.a.x w.b.x
    ∧ min w.a.y w.b.y ≤ (y : ℚ) ∧ (y : ℚ) ≤ max w.a.y w.b.y)

/-- The walls whose segment passes exactly through the integer point
(x, y).  Modelled from the spec: canvas.walls.quadtree.getObjects is an
external spatial index which, combined with the exact collisionTest of
getMovementAdjustedPoint (orient2dFast ... === 0), returns the wall
segments passing exactly through the queried point. -/
def wallsThroughPoint (walls : List Wall) (x y : ℤ) : List Wall :=
  walls.filter (fun w => wallContains w x y)

/-!  PositionTracker: private state #validPosition and #priorMovement of
the Token, and the methods #initialize, #recordMovement and
getMovementAdjustedPoint. -/

/-- The Token private field #priorMovement: last movement deltas dx, dy
and the persisted axis signs ox, oy. -/
structure MovementVector where
  dx : ℚ
  dy : ℚ
  ox : ℤ
  oy : ℤ
deriving DecidableEq

/-- The Token private field #validPosition: last confirmed x, y and
rotation. -/
structure TokenPosition where
  x : ℚ
  y : ℚ
  rotation : ℚ
deriving DecidableEq

/-- The prior movement seeded by Token.#initialize from the projected
facing ray: dx, dy are the components of the ray and ox, oy their
signs.  Modelled from the spec: Ray.fromAngle is external; the spec
says the initial MovementVector is derived by projecting a unit ray
along the facing rotation, so dx and dy are the components of that
non-zero projected ray. -/
def initMovement (dx dy : ℚ) : MovementVector :=
  { dx := dx, dy := dy, ox := jsSign dx, oy := jsSign dy }

/-- Token.#recordMovement: computes the directed segment from origin to
destination, keeps the prior axis sign when the corresponding delta is
exactly zero, and overwrites the valid position x, y with the
destination. -/
def recordMovement (vp : TokenPosition) (prior : MovementVector)
    (origin dest : Pt) : TokenPosition × MovementVector :=
  let dx := dest.x - origin.x
  let dy := dest.y - origin.y
  ({ vp with x := dest.x, y := dest.y },
   { dx := dx, dy := dy,
     ox := if dx = 0 then prior.ox else jsSign dx,
     oy := if dy = 0 then prior.oy else jsSign dy })

/-- Folding #recordMovement over a list of recorded (origin,
destination) movements. -/
def applyMoves (vp : TokenPosition) (prior : MovementVector)
    (moves : List (Pt × Pt)) : TokenPosition × MovementVector :=
  moves.foldl (fun s mv => recordMovement s.1 s.2 mv.1 mv.2) (vp, prior)

/-- Token.getMovementAdjustedPoint: rounds the point, queries the walls
passing exactly through the rounded coordinates, and if any exists
shifts the rounded point by one unit opposite the override offsets
(falling back to the persisted movement signs ox, oy); otherwise
returns the rounded point. -/
def getMovementAdjustedPoint (walls : List Wall) (prior : MovementVector)
    (p : Pt) (offsetX offsetY : Option ℤ) : Pt :=
  let x := jsRound p.x
  let y := jsRound p.y
  if (wallsThroughPoint walls x y).isEmpty then ⟨(x : ℚ), (y : ℚ)⟩
  else ⟨(x : ℚ) - ((offsetX.getD prior.ox : ℤ) : ℚ),
        (y : ℚ) - ((offsetY.getD prior.oy : ℤ) : ℚ)⟩

/-!  Light configuration and the SourceRegistry for light. -/

/-- The configured darkness activation band of a light. -/
structure DarknessBand where
  min : ℚ
  max : ℚ
deriving DecidableEq

/-- The light configuration of the TokenDocument. -/
structure LightDoc where
  dim : ℚ
  bright : ℚ
  angle : ℚ
  darkness : DarknessBand
deriving DecidableEq

/-- The sight configuration of the TokenDocument. -/
structure SightDoc where
  enabled : Bool
  range : ℚ
  angle : ℚ
  contrast : ℚ
  saturation : ℚ
  brightness : ℚ
  attenuation : ℚ
  visionMode : String
deriving DecidableEq

/-- The TokenDocument fields the perception pipeline reads. -/
structure TokenDoc where
  x : ℚ
  y : ℚ
  rotation : ℚ
  hidden : Bool
  light : LightDoc
  sight : SightDoc
deriving DecidableEq

/-- The canvas environment a Token reads: scene darkness level, scene
dimension constants and the wall list. -/
structure CanvasEnv where
  darknessLevel : ℚ
  size : ℚ
  distance : ℚ
  maxR : ℚ
  walls : List Wall
deriving DecidableEq

/-- Token.getLightRadius: zero maps to zero, otherwise the grid-unit
magnitude is converted to pixels and padded by half the on-screen token
width w, with the sign of the input restored. -/
def getLightRadius (env : CanvasEnv) (w : ℚ) (units : ℚ) : ℚ :=
  if units = 0 then 0
  else
    let u := |units|
    let hw := w / 2
    (((u / env.distance) * env.size) + hw) * (jsSign units : ℚ)

/-- Token.emitsLight: false when hidden, false when both light radii
are zero, otherwise true exactly when the scene darkness level lies in
the configured darkness band. -/
def emitsLight (doc : TokenDoc) (env : CanvasEnv) : Bool :=
  if doc.hidden then false
  else if doc.light.dim = 0 ∧ doc.light.bright = 0 then false
  else jsBetween env.darknessLevel doc.light.darkness.min doc.light.darkness.max

/-!  Association-list maps with JS-Map semantics, used for the shared
canvas-wide source indices canvas.effects.lightSources and
canvas.effects.visionSources. -/

/-- JS Map.has on an association list. -/
def mapHas {A : Type} (m : List (String × A)) (k : String) : Bool :=
  m.any (fun p => p.1 == k)

/-- JS Map.set on an association list: replace in place when the key is
present, append otherwise. -/
def mapSet {A : Type} (m : List (String × A)) (k : String) (v : A) :
    List (String × A) :=
  if mapHas m k then m.map (fun p => if p.1 == k then (k, v) else p)
  else m ++ [(k, v)]

/-- JS Map.delete on an association list. -/
def mapDelete {A : Type} (m : List (String × A)) (k : String) :
    List (String × A) :=
  m.filter (fun p => p.1 != k)

/-- The initialized light-source data written into the shared light
index: the document light configuration merged with the adjusted
origin, the clamped pixel radii and the document rotation. -/
structure LightSourceData where
  base : LightDoc
  x : ℚ
  y : ℚ
  dim : ℚ
  bright : ℚ
  rotation : ℚ
deriving DecidableEq

/-- Token.updateLightSource: when the token emits light and the source
is not being deleted, initialize the light source at the adjusted
center with radii clamped to the scene maximum and upsert it under the
stable source id; otherwise delete that key from the shared index.
Only the shared index is returned; the perception-scheduler request is
an external fire-and-forget call. -/
def updateLightSource (doc : TokenDoc) (env : CanvasEnv)
    (adjustedCenter : Pt) (w : ℚ) (sourceId : String)
    (srcs : List (String × LightSourceData)) (deleted : Bool) :
    List (String × LightSourceData) :=
  let isLightSource := emitsLight doc env
  if isLightSource ∧ ¬deleted then
    mapSet srcs sourceId
      { base := doc.light
        x := adjustedCenter.x
        y := adjustedCenter.y
        dim := jsClamped (getLightRadius env w doc.light.dim) 0 env.maxR
        bright := jsClamped (getLightRadius env w doc.light.bright) 0 env.maxR
        rotation := doc.rotation }
  else mapDelete srcs sourceId

/-!  The SourceRegistry for vision. -/

/-- The per-token facts read by Token._isVisionSource about one
controlled token of the layer: its identity, its document hidden flag
and whether it has sight enabled. -/
structure ControlledTok where
  id : ℕ
  hidden : Bool
  hasSight : Bool
deriving DecidableEq

/-- The viewing context of Token._isVisionSource: the global
token-vision toggle, whether the viewing user is a GM, whether that
user has observer permission on the token (actor testUserPermission
with the undefined actor collapsed to false), and the list of tokens
the user currently controls on the layer. -/
structure VisionCtx where
  tokenVision : Bool
  isGM : Bool
  canObserve : Bool
  layerControlled : List ControlledTok
deriving DecidableEq

/-- Token._isVisionSource translated branch by branch: no source
without global token vision or sight; hidden tokens only for a GM;
controlled tokens always; otherwise never for a GM; otherwise only
with observer permission and no controlled non-hidden sighted token
remaining on the layer. -/
def isVisionSource (hasSight hidden controlled : Bool) (ctx : VisionCtx) : Bool :=
  if !ctx.tokenVision || !hasSight then false
  else if hidden && !ctx.isGM then false
  else if controlled then true
  else if ctx.isGM then false
  else if !ctx.canObserve then false
  else (ctx.layerControlled.filter (fun t => !t.hidden && t.hasSight)).isEmpty

/-- The activation rule for vision in the words of the specification:
vision-testing enabled and sight enabled, a hidden token is a source
only for a GM viewer, any controlled token with sight is always a
source, and otherwise a non-GM viewer needs observer permission and
must control no other non-hidden token with sight. -/
def specVisionRule (tokId : ℕ) (hasSight hidden controlled : Bool)
    (ctx : VisionCtx) : Bool :=
  ctx.tokenVision && hasSight && (!hidden || ctx.isGM)
    && (controlled ||
        (!ctx.isGM && ctx.canObserve &&
          (ctx.layerControlled.filter
            (fun t => t.id != tokId && !t.hidden && t.hasSight)).isEmpty))

/-- The initialized vision-source data written into the shared vision
index by Token.updateVisionSource. -/
structure VisionSourceData where
  x : ℚ
  y : ℚ
  radius : ℚ
  externalRadius : ℚ
  angle : ℚ
  contrast : ℚ
  saturation : ℚ
  brightness : ℚ
  attenuation : ℚ
  rotation : ℚ
  visionMode : String
  blinded : Bool
deriving DecidableEq

/-- Token.updateVisionSource: when the token passes _isVisionSource and
the source is not being deleted, initialize the vision source at the
adjusted center (radius clamped to the scene maximum, external radius
half the larger mesh extent) and upsert it under the stable source id;
otherwise delete that key from the shared index. -/
def updateVisionSource (doc : TokenDoc) (env : CanvasEnv)
    (adjustedCenter : Pt) (w : ℚ) (meshW meshH : ℚ) (blinded : Bool)
    (controlled : Bool) (ctx : VisionCtx) (sourceId : String)
    (srcs : List (String × VisionSourceData)) (deleted : Bool) :
    List (String × VisionSourceData) :=
  let isSource := isVisionSource doc.sight.enabled doc.hidden controlled ctx
  if isSource ∧ ¬deleted then
    mapSet srcs sourceId
      { x := adjustedCenter.x
        y := adjustedCenter.y
        radius := jsClamped (getLightRadius env w doc.sight.range) 0 env.maxR
        externalRadius := max meshW meshH / 2
        angle := doc.sight.angle
        contrast := doc.sight.contrast
        saturation := doc.sight.saturation
        brightness := doc.sight.brightness
        attenuation := doc.sight.attenuation
        rotation := doc.rotation
        visionMode := doc.sight.visionMode
        blinded := blinded }
  else mapDelete srcs sourceId

/-!  AnimationEngine: the rotation normalization and the duration
derivation of Token.animate. -/

/-- The rotation block of Token.animate: for a baseline rotation a0 and
a target rotation a1, when the raw delta is non-zero the target is
shifted by -360 when the raw delta exceeds 180 and by +360 when it is
below -180, and the (from, to) pair is recorded; a zero raw delta
records nothing. -/
def animateRotation (a0 a1 : ℚ) : Option (ℚ × ℚ) :=
  let dr := a1 - a0
  if dr = 0 then none
  else
    let r1 := if dr > 180 then a1 - 360 else a1
    let r2 := if dr < -180 then r1 + 360 else r1
    some (a0, r2)

/-- The duration block of Token.animate: when the caller supplies no
(truthy) duration, one candidate is computed from the Euclidean
movement distance (supplied by the external Math.hypot collaborator)
when either positional delta is non-zero, one candidate from the
normalized rotation delta when it is non-zero, and the duration becomes
the maximum of the computed candidates; with no candidate the duration
stays unset. -/
def animateDurationDerived (hypot : ℚ → ℚ → ℚ)
    (dx dy dr size speed : ℚ) : Option ℚ :=
  let durations : List ℚ :=
    (if dx ≠ 0 ∨ dy ≠ 0 then [(hypot dx dy * 1000) / (size * speed)] else [])
    ++ (if dr ≠ 0 then [(|dr| * 1000) / (speed * 60)] else [])
  match durations with
  | [] => none
  | d :: ds => some (ds.foldl max d)

/-- The duration guard of Token.animate: a falsy supplied duration
(absent or zero) is replaced by the derived duration, a truthy supplied
duration is kept. -/
def animateDuration (hypot : ℚ → ℚ → ℚ) (given : Option ℚ)
    (dx dy dr size speed : ℚ) : Option ℚ :=
  match given with
  | some d =>
    if d = 0 then animateDurationDerived hypot dx dy dr size speed else some d
  | none => animateDurationDerived hypot dx dy dr size speed

/-!  CollisionDetector: Token.checkCollision. -/

/-- The collision types accepted by Token.checkCollision. -/
inductive CollisionType where
  | move
  | sight
  | light
  | sound
deriving DecidableEq

/-- The source object handed to the collision oracle: a freshly
initialized movement source at the adjusted origin, or the token vision
or light source. -/
inductive CollisionSource where
  | movement (origin : Pt) (elevation : ℚ)
  | visionSrc
  | lightSrc
deriving DecidableEq

/-- The detail the external collision oracle returns, kept abstract here. -/
structure CollisionResult where
  collides : Bool
deriving DecidableEq

/-- The read-only token state Token.checkCollision consults: the last
valid position, the persisted movement vector, the on-screen pixel
extents and the document elevation. -/
structure CollisionTokState where
  validPosition : TokenPosition
  prior : MovementVector
  w : ℚ
  h : ℚ
  elevation : ℚ
deriving DecidableEq

/-- Token.getCenter: the center of the token footprint whose top-left
corner is at (x, y). -/
def getCenter (w h x y : ℚ) : Pt := ⟨x + w / 2, y + h / 2⟩

/-- Token.checkCollision: the origin defaults to the movement-adjusted
valid-position center, the destination is movement-adjusted with the
per-axis sign of the proposed motion (falling back to the persisted
sign on a zero delta), the type selects the source object, and the
external oracle is consulted; the sound type throws before the oracle
is reached.  The token state is returned unchanged alongside the
result: the method never writes the valid position or the movement
vector. -/
def checkCollision (walls : List Wall) (tok : CollisionTokState)
    (dest : Pt) (originOpt : Option Pt) (ctype : CollisionType)
    (oracle : Pt → Pt → CollisionType → CollisionSource → CollisionResult) :
    Except String CollisionResult × CollisionTokState :=
  let center := originOpt.getD
    (getCenter tok.w tok.h tok.validPosition.x tok.validPosition.y)
  let origin := getMovementAdjustedPoint walls tok.prior center none none
  let dx := dest.x - center.x
  let dy := dest.y - center.y
  let offsetX := if dx = 0 then tok.prior.ox else jsSign dx
  let offsetY := if dy = 0 then tok.prior.oy else jsSign dy
  let dest2 := getMovementAdjustedPoint walls tok.prior dest (some offsetX) (some offsetY)
  match ctype with
  | .sound =>
    (.error "Collision testing for Token sound sources is not supported at this time", tok)
  | .move => (.ok (oracle origin dest2 .move (.movement origin tok.elevation)), tok)
  | .sight => (.ok (oracle origin dest2 .sight .visionSrc), tok)
  | .light => (.ok (oracle origin dest2 .light .lightSrc), tok)

/-!  TargetingSystem: Token.setTarget over the symmetric pair of
collections token.targeted (user ids per token) and user.targets
(token ids per user), modelled as insertion-ordered lists with JS-Set
add and delete semantics. -/

/-- JS Set.add on an insertion-ordered list. -/
def listAdd (l : List ℕ) (a : ℕ) : List ℕ :=
  if a ∈ l then l else l ++ [a]

/-- JS Set.delete on an insertion-ordered list. -/
def listDel (l : List ℕ) (a : ℕ) : List ℕ :=
  l.filter (fun b => b != a)

/-- The two mirrored targeting collections: for each token id the set
of user ids targeting it, and for each user id the set of token ids the
user targets. -/
structure TargetState where
  targeted : ℕ → List ℕ
  targets : ℕ → List ℕ

/-- The unconditional tail of Token.setTarget (the acquire and release
branches plus the symmetric set updates), which is also the whole
effect of a recursive setTarget call made with releaseOthers false:
add or delete the pair (token, user) in both collections. -/
def setTargetBase (st : TargetState) (tokId : ℕ) (tgt : Bool) (userId : ℕ) :
    TargetState :=
  if tgt then
    { targeted := Function.update st.targeted tokId (listAdd (st.targeted tokId) userId)
      targets := Function.update st.targets userId (listAdd (st.targets userId) tokId) }
  else
    { targeted := Function.update st.targeted tokId (listDel (st.targeted tokId) userId)
      targets := Function.update st.targets userId (listDel (st.targets userId) tokId) }

/-- The release loop of Token.setTarget: every member of the user
target list other than this token is released through a recursive
setTarget call made with releaseOthers false (the JS Set iteration only
ever removes the element currently being visited, so it visits every
original member in insertion order). -/
def releaseFold (tokId userId : ℕ) (st : TargetState) (l : List ℕ) : TargetState :=
  l.foldl (fun s t => if t ≠ tokId then setTargetBase s t false userId else s) st

/-- Token.setTarget: when the user has targets and releaseOthers is
set, the release loop runs and the user target set is then cleared
wholesale; afterwards the pair for this token is added or removed
symmetrically.  The refresh and broadcast side effects are external
collaborators and are not modelled. -/
def setTarget (st : TargetState) (tokId : ℕ) (tgt : Bool) (userId : ℕ)
    (releaseOthers : Bool) : TargetState :=
  let st1 :=
    if st.targets userId ≠ [] ∧ releaseOthers then
      let released := releaseFold tokId userId st (st.targets userId)
      { released with targets := Function.update released.targets userId [] }
    else st
  setTargetBase st1 tokId tgt userId

/-- Symmetry of the targeting relation: a user is a member of the
targeted set of a token exactly when the token is a member of the
target set of the user. -/
def SymRel (st : TargetState) : Prop :=
  ∀ t u, u ∈ st.targeted t ↔ t ∈ st.targets u

/-- The sign of the nearest preceding non-zero delta in a list of
recorded axis deltas, falling back to the initial sign when every delta
is zero.  This is the movement-vector characterization stated by the
specification, written independently of #recordMovement. -/
def sigOfLast (init : ℤ) (deltas : List ℚ) : ℤ :=
  match deltas.reverse.find? (fun d => d != 0) with
  | some d => jsSign d
  | none => init

/-!  Helper lemmas. -/

theorem jsSign_neg (q : ℚ) : jsSign (-q) = -(jsSign q) := by
  unfold jsSign
  rcases lt_trichotomy q 0 with h | h | h
  · rw [if_neg (by linarith : ¬(-q < 0)), if_pos (by linarith : (0 : ℚ) < -q),
      if_pos h]
    norm_num
  · subst h; norm_num
  · rw [if_pos (by linarith : -q < 0), if_neg (by linarith : ¬q < 0),
      if_pos h]

theorem jsSign_cases (q : ℚ) : jsSign q = -1 ∨ jsSign q = 0 ∨ jsSign q = 1 := by
  unfold jsSign; split_ifs <;> simp

theorem jsSign_eq_zero_iff (q : ℚ) : jsSign q = 0 ↔ q = 0 := by
  unfold jsSign
  split_ifs with h1 h2
  · exact iff_of_false (by norm_num) (fun h => by rw [h] at h1; exact absurd h1 (by norm_num))
  · exact iff_of_false (by norm_num) (fun h => by rw [h] at h2; exact absurd h2 (by norm_num))
  · exact iff_of_true rfl (le_antisymm (by linarith) (by linarith))

theorem jsRound_intCast (n : ℤ) : jsRound ((n : ℤ) : ℚ) = n := by
  unfold jsRound; norm_num

/-!  C9: getLightRadius is odd, vanishes at zero, and measures from the
token edge. -/

/-- Claim C9:  Token.getLightRadius maps zero to zero for every token size,
is an odd function of its grid-unit argument, and for a non-zero
argument has magnitude equal to the grid-to-pixel conversion of the
absolute argument plus half the on-screen token width, so radii are
measured from the token edge rather than its center. -/
theorem c9_getLightRadius (env : CanvasEnv) (w u : ℚ)
    (hd : 0 < env.distance) (hs : 0 ≤ env.size) (hw : 0 ≤ w) :
    getLightRadius env w 0 = 0 ∧
    getLightRadius env w (-u) = -getLightRadius env w u ∧
    (u ≠ 0 → |getLightRadius env w u| = (|u| / env.distance) * env.size + w / 2) := by
  refine ⟨by unfold getLightRadius; simp, ?_, ?_⟩
  · unfold getLightRadius
    by_cases hu : u = 0
    · subst hu; norm_num
    · rw [if_neg (by intro h; exact hu (by linarith)), if_neg hu, abs_neg, jsSign_neg]
      push_cast
      ring
  · intro hu
    unfold getLightRadius
    rw [if_neg hu]
    have hmag : 0 ≤ (|u| / env.distance) * env.size + w / 2 := by
      have := abs_nonneg u
      positivity
    rcases lt_trichotomy u 0 with h | h | h
    · rw [show jsSign u = -1 from by unfold jsSign; rw [if_pos h]]
      push_cast
      rw [abs_of_nonpos (by linarith)]
      ring
    · exact absurd h hu
    · rw [show jsSign u = 1 from by
        unfold jsSign; rw [if_neg (by linarith), if_pos h]]
      push_cast
      rw [mul_one, abs_of_nonneg hmag]

/-- Witness for claim C9 at a concrete environment: distance 5, grid size 100,
token width 100, radius 30 grid units. -/
theorem c9_getLightRadius_witness :
    getLightRadius ⟨0, 100, 5, 1000, []⟩ 100 0 = 0 ∧
    getLightRadius ⟨0, 100, 5, 1000, []⟩ 100 (-30)
      = -getLightRadius ⟨0, 100, 5, 1000, []⟩ 100 30 ∧
    ((30 : ℚ) ≠ 0 → |getLightRadius ⟨0, 100, 5, 1000, []⟩ 100 30|
      = ((|30| : ℚ) / 5) * 100 + 100 / 2) :=
  c9_getLightRadius ⟨0, 100, 5, 1000, []⟩ 100 30
    (by norm_num) (by norm_num) (by norm_num)

/-!  C7: the sound collision type fails fatally. -/

/-- Claim C7:  Token.checkCollision with the sound type throws the
unsupported-type error for every destination, origin option and oracle:
the result does not depend on the oracle (which is therefore never
consulted), no recoverable value is produced, and the token state with
its valid position and movement vector is returned unchanged. -/
theorem c7_sound_collision_fatal (walls : List Wall) (tok : CollisionTokState)
    (dest : Pt) (originOpt : Option Pt)
    (oracle : Pt → Pt → CollisionType → CollisionSource → CollisionResult) :
    checkCollision walls tok dest originOpt CollisionType.sound oracle
      = (Except.error
          "Collision testing for Token sound sources is not supported at this time",
         tok) := rfl

/-!  C5: shortest-angular-path rotation. -/

/-- Counterexample for claim C5:  At baseline 180 and target 0 (both normalized
degrees) the raw delta is -180, which lies outside the claimed
normalization interval because it is not greater than -180, yet the
rotation block of Token.animate keeps the target at 0: no 360-degree
adjustment is applied and the interpolated delta stays -180. -/
theorem c5_counterexample :
    animateRotation 180 0 = some (180, 0) ∧ ¬ (-180 : ℚ) < (0 : ℚ) - 180 := by
  constructor
  · simp only [animateRotation]
    rw [if_neg (by norm_num : ¬(0 : ℚ) - 180 = 0),
      if_neg (by norm_num : ¬(0 : ℚ) - 180 > 180),
      if_neg (by norm_num : ¬(0 : ℚ) - 180 < -180)]
  · norm_num

/-- Amended claim C5:  For baseline and target rotations normalized to
[0, 360), the rotation block of Token.animate records an attribute
exactly when the rotations differ, keeps the baseline as the starting
value, and produces a target whose delta from the baseline lies in the
closed interval [-180, 180] and differs from the raw delta by a
multiple of 360: a raw delta strictly outside [-180, 180] is normalized
by adding or subtracting 360, while a raw delta of exactly -180 is kept
as is. -/
theorem c5_rotation_shortest_path (a0 a1 : ℚ)
    (h00 : 0 ≤ a0) (h01 : a0 < 360) (h10 : 0 ≤ a1) (h11 : a1 < 360) :
    (animateRotation a0 a1 = none ↔ a1 = a0) ∧
    (∀ p : ℚ × ℚ, animateRotation a0 a1 = some p →
      p.1 = a0 ∧ -180 ≤ p.2 - a0 ∧ p.2 - a0 ≤ 180 ∧
      (p.2 - a0 - (a1 - a0) = 0 ∨ p.2 - a0 - (a1 - a0) = 360 ∨
       p.2 - a0 - (a1 - a0) = -360)) := by
  simp only [animateRotation]
  constructor
  · split_ifs with h
    · exact iff_of_true rfl (by linarith)
    · exact iff_of_false (by simp) (fun he => h (by rw [he]; ring))
  · intro p hp
    split_ifs at hp with h1 h3 h2 h2
    all_goals obtain rfl := (Option.some.inj hp).symm
    all_goals refine ⟨rfl, ?_, ?_, ?_⟩
    all_goals dsimp only
    all_goals first
      | linarith
      | (left; ring1)
      | (right; left; ring1)
      | (right; right; ring1)

/-- Witness for claim C5 at the rotation from 350 to 10 degrees: the recorded
target is 370, a net change of +20 through 360/0 rather than -340. -/
theorem c5_rotation_witness :
    animateRotation 350 10 = some (350, 370) ∧
    (-180 : ℚ) ≤ (350, (370 : ℚ)).2 - 350 ∧ ((350 : ℚ), (370 : ℚ)).2 - 350 ≤ 180 ∧
    ((370 : ℚ) - 350 = 20) := by
  have he : animateRotation 350 10 = some (350, 370) := by
    simp only [animateRotation]
    rw [if_neg (by norm_num : ¬(10 : ℚ) - 350 = 0),
      if_pos (by norm_num : (10 : ℚ) - 350 < -180),
      if_neg (by norm_num : ¬(10 : ℚ) - 350 > 180)]
    norm_num
  have h := (c5_rotation_shortest_path 350 10 (by norm_num) (by norm_num)
    (by norm_num) (by norm_num)).2 (350, 370) he
  exact ⟨he, h.2.1, h.2.2.1, by norm_num⟩

/-!  C6: derived animation duration. -/

/-- Claim C6:  When Token.animate receives no duration option and at least
one of position or rotation changes, the duration is the maximum of
the computed candidates: a movement candidate equal to the Euclidean
distance (via the external Math.hypot) scaled to milliseconds over
gridSize times movementSpeed whenever either positional delta is
non-zero, and a rotation candidate equal to the absolute normalized
rotation delta scaled to milliseconds over movementSpeed times 60
whenever that delta is non-zero; with both kinds of change the two
candidates are combined by max, so movement and rotation finish
simultaneously rather than as separate phases. -/
theorem c6_animation_duration (hypot : ℚ → ℚ → ℚ) (dx dy dr size speed : ℚ) :
    ((dx ≠ 0 ∨ dy ≠ 0) → dr ≠ 0 →
      animateDuration hypot none dx dy dr size speed
        = some (max ((hypot dx dy * 1000) / (size * speed))
                    ((|dr| * 1000) / (speed * 60)))) ∧
    ((dx ≠ 0 ∨ dy ≠ 0) → dr = 0 →
      animateDuration hypot none dx dy dr size speed
        = some ((hypot dx dy * 1000) / (size * speed))) ∧
    (dx = 0 → dy = 0 → dr ≠ 0 →
      animateDuration hypot none dx dy dr size speed
        = some ((|dr| * 1000) / (speed * 60))) := by
  refine ⟨?_, ?_, ?_⟩
  · intro hm hr
    simp only [animateDuration, animateDurationDerived, if_pos hm, if_pos hr]
    simp [List.foldl]
  · intro hm hr
    simp only [animateDuration, animateDurationDerived, if_pos hm,
      if_neg (by simp [hr] : ¬dr ≠ 0)]
    simp
  · intro hx hy hr
    simp only [animateDuration, animateDurationDerived,
      if_neg (by simp [hx, hy] : ¬(dx ≠ 0 ∨ dy ≠ 0)), if_pos hr]
    simp

/-- Witness for claim C6 with a concrete external hypot and a diagonal move of
(300, 400) pixels plus a 90 degree rotation at grid size 100 and speed
5: both candidates are computed and combined with max. -/
theorem c6_animation_duration_witness :
    animateDuration (fun a b => a + b) none 300 400 90 100 5
      = some (max ((((300 : ℚ) + 400) * 1000) / (100 * 5))
                  ((|(90 : ℚ)| * 1000) / (5 * 60))) :=
  (c6_animation_duration (fun a b => a + b) 300 400 90 100 5).1
    (Or.inl (by norm_num)) (by norm_num)

/-!  Association-list facts for the shared source indices. -/

theorem mapHas_eq_true {A : Type} (m : List (String × A)) (k : String) :
    mapHas m k = true ↔ ∃ p ∈ m, p.1 = k := by
  simp [mapHas, List.any_eq_true]

theorem mapHas_mapSet_self {A : Type} (m : List (String × A)) (k : String) (v : A) :
    mapHas (mapSet m k v) k = true := by
  unfold mapSet
  split
  · rename_i h
    rw [mapHas_eq_true] at h ⊢
    obtain ⟨p, hp, hpk⟩ := h
    refine ⟨(k, v), ?_, rfl⟩
    rw [List.mem_map]
    exact ⟨p, hp, by rw [if_pos (by simp [hpk])]⟩
  · rw [mapHas_eq_true]
    exact ⟨(k, v), by simp, rfl⟩

theorem mapHas_mapDelete_self {A : Type} (m : List (String × A)) (k : String) :
    mapHas (mapDelete m k) k = false := by
  simp [mapHas, mapDelete, List.mem_filter, List.any_eq_true]

theorem mapDelete_idem {A : Type} (m : List (String × A)) (k : String) :
    mapDelete (mapDelete m k) k = mapDelete m k := by
  unfold mapDelete
  rw [List.filter_filter]
  simp

/-!  C1: the light-index membership invariant. -/

theorem emitsLight_iff (doc : TokenDoc) (env : CanvasEnv) :
    emitsLight doc env = true ↔
      (doc.hidden = false ∧ (doc.light.dim ≠ 0 ∨ doc.light.bright ≠ 0) ∧
       doc.light.darkness.min ≤ env.darknessLevel ∧
       env.darknessLevel ≤ doc.light.darkness.max) := by
  unfold emitsLight jsBetween
  split_ifs with h1 h2
  · simp [h1]
  · refine iff_of_false (by simp) ?_
    intro ⟨_, hnz, _⟩
    rcases hnz with h | h
    · exact h h2.1
    · exact h h2.2
  · rw [decide_eq_true_eq]
    constructor
    · intro hb
      refine ⟨by revert h1; cases doc.hidden <;> simp, not_and_or.mp h2, hb.1, hb.2⟩
    · intro ⟨_, _, hb1, hb2⟩
      exact ⟨hb1, hb2⟩

/-- Claim C1:  After Token.updateLightSource with deleted false, the stable
source id is a key of the shared light index exactly when the token is
not hidden, one of its dim or bright radii is non-zero, and the scene
darkness level lies inside the configured darkness band; every call
whose activation condition fails, and every call with deleted true,
removes the key; and a second removing call leaves the index
unchanged. -/
theorem c1_light_index (doc : TokenDoc) (env : CanvasEnv) (adj : Pt) (w : ℚ)
    (sid : String) (srcs : List (String × LightSourceData)) :
    (mapHas (updateLightSource doc env adj w sid srcs false) sid = true ↔
      (doc.hidden = false ∧ (doc.light.dim ≠ 0 ∨ doc.light.bright ≠ 0) ∧
       doc.light.darkness.min ≤ env.darknessLevel ∧
       env.darknessLevel ≤ doc.light.darkness.max)) ∧
    (∀ deleted : Bool, (deleted = true ∨ emitsLight doc env = false) →
      mapHas (updateLightSource doc env adj w sid srcs deleted) sid = false) ∧
    (∀ d1 d2 : Bool, (d1 = true ∨ emitsLight doc env = false) →
      (d2 = true ∨ emitsLight doc env = false) →
      updateLightSource doc env adj w sid
        (updateLightSource doc env adj w sid srcs d1) d2
        = updateLightSource doc env adj w sid srcs d1) := by
  have hno : ∀ d : Bool, (d = true ∨ emitsLight doc env = false) →
      ¬(emitsLight doc env = true ∧ ¬(d = true)) := by
    intro d hd
    rcases hd with h | h
    · intro hc; exact hc.2 h
    · intro hc; rw [h] at hc; exact Bool.noConfusion hc.1
  have hrem : ∀ (m : List (String × LightSourceData)) (d : Bool),
      (d = true ∨ emitsLight doc env = false) →
      updateLightSource doc env adj w sid m d = mapDelete m sid := by
    intro m d hd
    simp only [updateLightSource]
    rw [if_neg (hno d hd)]
  refine ⟨?_, ?_, ?_⟩
  · by_cases he : emitsLight doc env = true
    · simp only [updateLightSource]
      rw [if_pos ⟨he, by simp⟩]
      rw [mapHas_mapSet_self]
      exact iff_of_true rfl ((emitsLight_iff doc env).mp he)
    · have he2 : emitsLight doc env = false := by
        revert he; cases emitsLight doc env <;> simp
      rw [hrem srcs false (Or.inr he2), mapHas_mapDelete_self]
      refine iff_of_false (by simp) ?_
      intro hcond
      exact he ((emitsLight_iff doc env).mpr hcond)
  · intro deleted hd
    rw [hrem srcs deleted hd]
    exact mapHas_mapDelete_self srcs sid
  · intro d1 d2 h1 h2
    rw [hrem _ d2 h2, hrem srcs d1 h1, mapDelete_idem]

/-- Witness for claim C1: a hidden token with deleted true is removed from a
singleton index, and a second removing call leaves the index fixed. -/
theorem c1_light_index_witness :
    mapHas
      (updateLightSource
        ⟨0, 0, 0, true, ⟨5, 0, 360, ⟨0, 1⟩⟩, ⟨true, 30, 360, 0, 0, 0, 0, "basic"⟩⟩
        ⟨0, 100, 5, 1000, []⟩ ⟨0, 0⟩ 100 "Token.a" [] true) "Token.a" = false ∧
    updateLightSource
        ⟨0, 0, 0, true, ⟨5, 0, 360, ⟨0, 1⟩⟩, ⟨true, 30, 360, 0, 0, 0, 0, "basic"⟩⟩
        ⟨0, 100, 5, 1000, []⟩ ⟨0, 0⟩ 100 "Token.a"
      (updateLightSource
        ⟨0, 0, 0, true, ⟨5, 0, 360, ⟨0, 1⟩⟩, ⟨true, 30, 360, 0, 0, 0, 0, "basic"⟩⟩
        ⟨0, 100, 5, 1000, []⟩ ⟨0, 0⟩ 100 "Token.a" [] true) true
      = updateLightSource
        ⟨0, 0, 0, true, ⟨5, 0, 360, ⟨0, 1⟩⟩, ⟨true, 30, 360, 0, 0, 0, 0, "basic"⟩⟩
        ⟨0, 100, 5, 1000, []⟩ ⟨0, 0⟩ 100 "Token.a" [] true :=
  ⟨(c1_light_index _ _ _ _ _ _).2.1 true (Or.inl rfl),
   (c1_light_index _ _ _ _ _ _).2.2 true true (Or.inl rfl) (Or.inl rfl)⟩

/-!  C4: movement-adjusted points. -/

theorem getMovementAdjustedPoint_intCoords (walls : List Wall)
    (prior : MovementVector) (p : Pt) (offX offY : Option ℤ) :
    ∃ m n : ℤ, getMovementAdjustedPoint walls prior p offX offY
      = ⟨(m : ℚ), (n : ℚ)⟩ := by
  by_cases h : (wallsThroughPoint walls (jsRound p.x) (jsRound p.y)).isEmpty = true
  · refine ⟨jsRound p.x, jsRound p.y, ?_⟩
    simp only [getMovementAdjustedPoint]
    rw [if_pos h]
  · refine ⟨jsRound p.x - offX.getD prior.ox, jsRound p.y - offY.getD prior.oy, ?_⟩
    simp only [getMovementAdjustedPoint]
    rw [if_neg h, Pt.mk.injEq]
    constructor <;> push_cast <;> ring

/-- Counterexample for claim C4:  With a wall from (0,0) to (-2,-2) and persisted
movement signs (1,1), the point (0,0) lies exactly on the wall and is
shifted to (-1,-1); but the wall also passes exactly through (-1,-1),
so a second call with the unchanged movement sign shifts again to
(-2,-2): the operation is not idempotent. -/
theorem c4_counterexample :
    getMovementAdjustedPoint [⟨⟨0, 0⟩, ⟨-2, -2⟩⟩] ⟨1, 1, 1, 1⟩ ⟨0, 0⟩ none none
      = ⟨-1, -1⟩ ∧
    getMovementAdjustedPoint [⟨⟨0, 0⟩, ⟨-2, -2⟩⟩] ⟨1, 1, 1, 1⟩
      (getMovementAdjustedPoint [⟨⟨0, 0⟩, ⟨-2, -2⟩⟩] ⟨1, 1, 1, 1⟩ ⟨0, 0⟩ none none)
      none none = ⟨-2, -2⟩ ∧
    (⟨-2, -2⟩ : Pt) ≠ ⟨-1, -1⟩ := by
  have h1 : getMovementAdjustedPoint [⟨⟨0, 0⟩, ⟨-2, -2⟩⟩] ⟨1, 1, 1, 1⟩ ⟨0, 0⟩
      none none = ⟨-1, -1⟩ := by
    norm_num [getMovementAdjustedPoint, wallsThroughPoint, wallContains,
      orient2dFast, jsRound, List.filter]
  have h2 : getMovementAdjustedPoint [⟨⟨0, 0⟩, ⟨-2, -2⟩⟩] ⟨1, 1, 1, 1⟩ ⟨-1, -1⟩
      none none = ⟨-2, -2⟩ := by
    norm_num [getMovementAdjustedPoint, wallsThroughPoint, wallContains,
      orient2dFast, jsRound, List.filter]
  refine ⟨h1, by rw [h1]; exact h2, ?_⟩
  rw [Ne, Pt.mk.injEq]
  norm_num

/-- Amended claim C4:  Token.getMovementAdjustedPoint returns the point
rounded to the nearest integer coordinates whenever no wall passes
exactly through the rounded coordinates (which is the unmodified point
exactly when the coordinates are already integers), and the rounded
point shifted by one unit opposite overrideOffsets (falling back to the
persisted movement signs) whenever such a wall exists; a repeated call
with the same offsets is idempotent provided no wall passes exactly
through the point produced by the first call, but not in general. -/
theorem c4_adjusted_point (walls : List Wall) (prior : MovementVector)
    (p : Pt) (offX offY : Option ℤ) :
    ((wallsThroughPoint walls (jsRound p.x) (jsRound p.y)).isEmpty = true →
      getMovementAdjustedPoint walls prior p offX offY
        = ⟨(jsRound p.x : ℚ), (jsRound p.y : ℚ)⟩) ∧
    ((wallsThroughPoint walls (jsRound p.x) (jsRound p.y)).isEmpty = true →
      p.x = ((jsRound p.x : ℤ) : ℚ) → p.y = ((jsRound p.y : ℤ) : ℚ) →
      getMovementAdjustedPoint walls prior p offX offY = p) ∧
    ((wallsThroughPoint walls (jsRound p.x) (jsRound p.y)).isEmpty = false →
      getMovementAdjustedPoint walls prior p offX offY
        = ⟨(jsRound p.x : ℚ) - ((offX.getD prior.ox : ℤ) : ℚ),
           (jsRound p.y : ℚ) - ((offY.getD prior.oy : ℤ) : ℚ)⟩) ∧
    (∀ q : Pt, q = getMovementAdjustedPoint walls prior p offX offY →
      (wallsThroughPoint walls (jsRound q.x) (jsRound q.y)).isEmpty = true →
      getMovementAdjustedPoint walls prior q offX offY = q) := by
  refine ⟨?_, ?_, ?_, ?_⟩
  · intro hempty
    unfold getMovementAdjustedPoint
    rw [if_pos hempty]
  · intro hempty hx hy
    unfold getMovementAdjustedPoint
    rw [if_pos hempty, Pt.mk.injEq]
    exact ⟨hx.symm, hy.symm⟩
  · intro hwall
    unfold getMovementAdjustedPoint
    rw [if_neg (by rw [hwall]; exact Bool.noConfusion)]
  · intro q hq hempty
    obtain ⟨m, n, hmn⟩ := getMovementAdjustedPoint_intCoords walls prior p offX offY
    subst hq
    rw [hmn] at hempty ⊢
    simp only at hempty ⊢
    unfold getMovementAdjustedPoint
    simp only [jsRound_intCast] at hempty ⊢
    rw [if_pos hempty]

/-- Witness for claim C4: with no walls, the point (1/2, 3) is returned rounded
to (1, 3). -/
theorem c4_adjusted_point_witness :
    getMovementAdjustedPoint [] ⟨1, 1, 1, 1⟩ ⟨1/2, 3⟩ none none
      = ⟨(jsRound (1/2 : ℚ) : ℚ), (jsRound (3 : ℚ) : ℚ)⟩ :=
  (c4_adjusted_point [] ⟨1, 1, 1, 1⟩ ⟨1/2, 3⟩ none none).1 rfl

/-!  C3: the persisted movement-direction signs. -/

theorem sigOfLast_cons (i : ℤ) (d : ℚ) (ds : List ℚ) :
    sigOfLast i (d :: ds) = sigOfLast (if d = 0 then i else jsSign d) ds := by
  unfold sigOfLast
  rw [List.reverse_cons, List.find?_append]
  cases hf : ds.reverse.find? (fun x => x != 0) with
  | some e => rfl
  | none =>
    by_cases hd : d = 0
    · subst hd; simp
    · simp [List.find?_cons, hd]

theorem sigOfLast_cases (i : ℤ) (ds : List ℚ) :
    sigOfLast i ds = i ∨ ∃ d, d ≠ 0 ∧ sigOfLast i ds = jsSign d := by
  unfold sigOfLast
  cases hf : ds.reverse.find? (fun x => x != 0) with
  | none => left; rfl
  | some d =>
    right
    refine ⟨d, ?_, rfl⟩
    have hd := List.find?_some hf
    rwa [bne_iff_ne] at hd

theorem sigOfLast_eq_zero (i : ℤ) (ds : List ℚ) (h : sigOfLast i ds = 0) :
    i = 0 := by
  unfold sigOfLast at h
  cases hf : ds.reverse.find? (fun x => x != 0) with
  | none => rw [hf] at h; exact h
  | some d =>
    rw [hf] at h
    have hd := List.find?_some hf
    rw [bne_iff_ne] at hd
    exact absurd ((jsSign_eq_zero_iff d).mp h) hd

theorem applyMoves_signs (vp : TokenPosition) (prior : MovementVector)
    (moves : List (Pt × Pt)) :
    ((applyMoves vp prior moves).2).ox
        = sigOfLast prior.ox (moves.map (fun mv => mv.2.x - mv.1.x)) ∧
    ((applyMoves vp prior moves).2).oy
        = sigOfLast prior.oy (moves.map (fun mv => mv.2.y - mv.1.y)) := by
  induction moves generalizing vp prior with
  | nil => exact ⟨rfl, rfl⟩
  | cons mv moves ih =>
    simp only [applyMoves, List.foldl_cons] at ih ⊢
    rw [List.map_cons, List.map_cons, sigOfLast_cons, sigOfLast_cons]
    exact ih _ _

/-- Claim C3:  After initialization from a non-zero facing projection, for
every sequence of recorded movements the persisted ox equals the sign
of the nearest preceding movement with non-zero x-delta (falling back
to the initial sign when every x-delta is zero), symmetrically for oy;
both always lie in the set of -1, 0 and 1; and they are never both
zero. -/
theorem c3_movement_vector (dx0 dy0 : ℚ) (h0 : ¬(dx0 = 0 ∧ dy0 = 0))
    (vp : TokenPosition) (moves : List (Pt × Pt)) :
    ((applyMoves vp (initMovement dx0 dy0) moves).2).ox
        = sigOfLast (jsSign dx0) (moves.map (fun mv => mv.2.x - mv.1.x)) ∧
    ((applyMoves vp (initMovement dx0 dy0) moves).2).oy
        = sigOfLast (jsSign dy0) (moves.map (fun mv => mv.2.y - mv.1.y)) ∧
    (((applyMoves vp (initMovement dx0 dy0) moves).2).ox = -1 ∨
     ((applyMoves vp (initMovement dx0 dy0) moves).2).ox = 0 ∨
     ((applyMoves vp (initMovement dx0 dy0) moves).2).ox = 1) ∧
    (((applyMoves vp (initMovement dx0 dy0) moves).2).oy = -1 ∨
     ((applyMoves vp (initMovement dx0 dy0) moves).2).oy = 0 ∨
     ((applyMoves vp (initMovement dx0 dy0) moves).2).oy = 1) ∧
    ¬(((applyMoves vp (initMovement dx0 dy0) moves).2).ox = 0 ∧
      ((applyMoves vp (initMovement dx0 dy0) moves).2).oy = 0) := by
  obtain ⟨hx, hy⟩ := applyMoves_signs vp (initMovement dx0 dy0) moves
  have hix : (initMovement dx0 dy0).ox = jsSign dx0 := rfl
  have hiy : (initMovement dx0 dy0).oy = jsSign dy0 := rfl
  rw [hix] at hx
  rw [hiy] at hy
  have hmem : ∀ (i : ℤ) (ds : List ℚ), (i = -1 ∨ i = 0 ∨ i = 1) →
      (sigOfLast i ds = -1 ∨ sigOfLast i ds = 0 ∨ sigOfLast i ds = 1) := by
    intro i ds hi
    rcases sigOfLast_cases i ds with h | ⟨d, _, h⟩
    · rw [h]; exact hi
    · rw [h]; exact jsSign_cases d
  refine ⟨hx, hy, ?_, ?_, ?_⟩
  · rw [hx]; exact hmem _ _ (jsSign_cases dx0)
  · rw [hy]; exact hmem _ _ (jsSign_cases dy0)
  · intro ⟨hzx, hzy⟩
    rw [hx] at hzx
    rw [hy] at hzy
    exact h0 ⟨(jsSign_eq_zero_iff dx0).mp (sigOfLast_eq_zero _ _ hzx),
      (jsSign_eq_zero_iff dy0).mp (sigOfLast_eq_zero _ _ hzy)⟩

/-- Witness for claim C3 at the initial facing projection (1, 0) and a vertical
move followed by a zero-delta move: the x sign persists from
initialization and the y sign from the non-zero y-delta. -/
theorem c3_movement_vector_witness :
    (let moves : List (Pt × Pt) := [(⟨0, 0⟩, ⟨0, 5⟩), (⟨0, 5⟩, ⟨0, 5⟩)]
     let m := (applyMoves ⟨0, 0, 0⟩ (initMovement 1 0) moves).2
     m.ox = sigOfLast (jsSign 1) (moves.map (fun mv => mv.2.x - mv.1.x)) ∧
     m.oy = sigOfLast (jsSign 0) (moves.map (fun mv => mv.2.y - mv.1.y)) ∧
     (m.ox = -1 ∨ m.ox = 0 ∨ m.ox = 1) ∧
     (m.oy = -1 ∨ m.oy = 0 ∨ m.oy = 1) ∧
     ¬(m.ox = 0 ∧ m.oy = 0)) :=
  c3_movement_vector 1 0 (by norm_num) ⟨0, 0, 0⟩
    [(⟨0, 0⟩, ⟨0, 5⟩), (⟨0, 5⟩, ⟨0, 5⟩)]

/-!  C2: the vision-source activation rule and registration. -/

theorem visionFilter_of_not_controlled (tokId : ℕ) (l : List ControlledTok)
    (h : l.any (fun t => t.id == tokId) = false) :
    l.filter (fun t => t.id != tokId && !t.hidden && t.hasSight)
      = l.filter (fun t => !t.hidden && t.hasSight) := by
  apply List.filter_congr
  intro t ht
  have h2 : ¬(t.id == tokId) = true := by
    intro hc
    have hany : l.any (fun t => t.id == tokId) = true :=
      List.any_eq_true.mpr ⟨t, ht, hc⟩
    rw [h] at hany
    exact Bool.noConfusion hany
  have h3 : (t.id != tokId) = true := by
    rw [bne_iff_ne]
    intro he
    exact h2 (by rw [he]; simp)
  rw [h3, Bool.true_and]

theorem isVisionSource_eq_spec (tokId : ℕ) (hasSight hidden controlled : Bool)
    (ctx : VisionCtx)
    (hctrl : controlled = ctx.layerControlled.any (fun t => t.id == tokId)) :
    isVisionSource hasSight hidden controlled ctx
      = specVisionRule tokId hasSight hidden controlled ctx := by
  have hfilt : controlled = false →
      ctx.layerControlled.filter (fun t => t.id != tokId && !t.hidden && t.hasSight)
        = ctx.layerControlled.filter (fun t => !t.hidden && t.hasSight) := by
    intro hc
    exact visionFilter_of_not_controlled tokId _ (hctrl.symm.trans hc)
  cases htv : ctx.tokenVision <;> cases hhs : hasSight <;> cases hh : hidden <;>
    cases hgm : ctx.isGM <;> cases hco : ctx.canObserve <;> cases hct : controlled <;>
    simp_all [isVisionSource, specVisionRule]

/-- Claim C2:  After Token.updateVisionSource with deleted false, the stable
source id is a key of the shared vision index exactly when the
activation rule of the specification holds: global vision-testing
enabled, sight enabled, hidden tokens admitted only for a GM viewer, a
controlled token with sight always admitted, and otherwise a non-GM
viewer admitted only with observer permission while controlling no
other non-hidden token with sight.  The hypothesis ties the controlled
flag of this token to the layer list of controlled tokens. -/
theorem c2_vision_source (doc : TokenDoc) (env : CanvasEnv) (adj : Pt)
    (w meshW meshH : ℚ) (blinded controlled : Bool) (ctx : VisionCtx)
    (tokId : ℕ) (sid : String) (srcs : List (String × VisionSourceData))
    (hctrl : controlled = ctx.layerControlled.any (fun t => t.id == tokId)) :
    mapHas (updateVisionSource doc env adj w meshW meshH blinded controlled
        ctx sid srcs false) sid
      = specVisionRule tokId doc.sight.enabled doc.hidden controlled ctx := by
  rw [← isVisionSource_eq_spec tokId doc.sight.enabled doc.hidden controlled ctx hctrl]
  by_cases hv : isVisionSource doc.sight.enabled doc.hidden controlled ctx = true
  · simp only [updateVisionSource]
    rw [if_pos ⟨hv, by simp⟩, hv, mapHas_mapSet_self]
  · have hv2 : isVisionSource doc.sight.enabled doc.hidden controlled ctx = false := by
      revert hv
      cases isVisionSource doc.sight.enabled doc.hidden controlled ctx <;> simp
    simp only [updateVisionSource]
    rw [if_neg (fun hc => hv hc.1), hv2, mapHas_mapDelete_self]

/-- Witness for claim C2: an uncontrolled, unhidden, sighted token observed by a
non-GM user with observer permission and no controlled token on the
layer is registered in the vision index. -/
theorem c2_vision_source_witness :
    mapHas
      (updateVisionSource
        ⟨0, 0, 0, false, ⟨5, 0, 360, ⟨0, 1⟩⟩, ⟨true, 30, 360, 0, 0, 0, 0, "basic"⟩⟩
        ⟨0, 100, 5, 1000, []⟩ ⟨0, 0⟩ 100 100 100 false false ⟨true, false, true, []⟩
        "Token.a" [] false) "Token.a"
      = specVisionRule 7 true false false ⟨true, false, true, []⟩ :=
  c2_vision_source
    ⟨0, 0, 0, false, ⟨5, 0, 360, ⟨0, 1⟩⟩, ⟨true, 30, 360, 0, 0, 0, 0, "basic"⟩⟩
    ⟨0, 100, 5, 1000, []⟩ ⟨0, 0⟩ 100 100 100 false false ⟨true, false, true, []⟩
    7 "Token.a" [] rfl

/-!  Targeting lemmas shared by C8 and C10. -/

theorem mem_listAdd {l : List ℕ} {a b : ℕ} : b ∈ listAdd l a ↔ b ∈ l ∨ b = a := by
  unfold listAdd
  split
  · rename_i h
    constructor
    · exact Or.inl
    · rintro (hb | rfl)
      · exact hb
      · exact h
  · simp [List.mem_append]

theorem mem_listDel {l : List ℕ} {a b : ℕ} : b ∈ listDel l a ↔ b ∈ l ∧ b ≠ a := by
  simp [listDel, List.mem_filter]

theorem setTargetBase_targeted_apply (st : TargetState) (k : ℕ) (tgt : Bool)
    (u t : ℕ) :
    (setTargetBase st k tgt u).targeted t
      = if t = k then
          (if tgt then listAdd (st.targeted k) u else listDel (st.targeted k) u)
        else st.targeted t := by
  unfold setTargetBase
  cases tgt <;> simp [Function.update_apply]

theorem setTargetBase_targets_apply (st : TargetState) (k : ℕ) (tgt : Bool)
    (u v : ℕ) :
    (setTargetBase st k tgt u).targets v
      = if v = u then
          (if tgt then listAdd (st.targets u) k else listDel (st.targets u) k)
        else st.targets v := by
  unfold setTargetBase
  cases tgt <;> simp [Function.update_apply]

theorem symrel_setTargetBase (st : TargetState) (k : ℕ) (tgt : Bool) (u : ℕ)
    (h : SymRel st) : SymRel (setTargetBase st k tgt u) := by
  intro t v
  rw [setTargetBase_targeted_apply, setTargetBase_targets_apply]
  by_cases ht : t = k <;> by_cases hv : v = u <;> cases tgt <;>
    simp [ht, hv, mem_listAdd, mem_listDel, h t v, h k v, h t u]

theorem symrel_releaseFold (k u : ℕ) (l : List ℕ) (st : TargetState)
    (h : SymRel st) : SymRel (releaseFold k u st l) := by
  induction l generalizing st with
  | nil => exact h
  | cons a l ih =>
    simp only [releaseFold, List.foldl_cons] at ih ⊢
    by_cases ha : a ≠ k
    · rw [if_pos ha]
      exact ih _ (symrel_setTargetBase st a false u h)
    · rw [if_neg ha]
      exact ih _ h

theorem releaseFold_targets_sub (k u : ℕ) (l : List ℕ) (st : TargetState)
    (x : ℕ) (h : x ∈ (releaseFold k u st l).targets u) : x ∈ st.targets u := by
  induction l generalizing st with
  | nil => exact h
  | cons a l ih =>
    simp only [releaseFold, List.foldl_cons] at h
    by_cases ha : a ≠ k
    · rw [if_pos ha] at h
      have hx := ih _ h
      rw [setTargetBase_targets_apply, if_pos rfl] at hx
      simp only [if_neg (Bool.false_ne_true)] at hx
      exact (mem_listDel.mp hx).1
    · rw [if_neg ha] at h
      exact ih _ h

theorem releaseFold_targets_removed (k u : ℕ) (l : List ℕ) (st : TargetState)
    (x : ℕ) (hx : x ∈ l) (hk : x ≠ k) :
    x ∉ (releaseFold k u st l).targets u := by
  induction l generalizing st with
  | nil => exact absurd hx (List.not_mem_nil x)
  | cons a l ih =>
    simp only [releaseFold, List.foldl_cons]
    rcases List.mem_cons.mp hx with rfl | hxl
    · rw [if_pos hk]
      intro hc
      have hsub := releaseFold_targets_sub k u l _ x hc
      rw [setTargetBase_targets_apply, if_pos rfl] at hsub
      simp only [if_neg (Bool.false_ne_true)] at hsub
      exact (mem_listDel.mp hsub).2 rfl
    · by_cases ha : a ≠ k
      · rw [if_pos ha]; exact ih _ hxl
      · rw [if_neg ha]; exact ih _ hxl

theorem releaseFold_targeted_sub (k u : ℕ) (l : List ℕ) (st : TargetState)
    (t : ℕ) (h : u ∈ (releaseFold k u st l).targeted t) : u ∈ st.targeted t := by
  induction l generalizing st with
  | nil => exact h
  | cons a l ih =>
    simp only [releaseFold, List.foldl_cons] at h
    by_cases ha : a ≠ k
    · rw [if_pos ha] at h
      have hx := ih _ h
      rw [setTargetBase_targeted_apply] at hx
      by_cases hta : t = a
      · rw [if_pos hta] at hx
        simp only [if_neg (Bool.false_ne_true)] at hx
        exact absurd rfl (mem_listDel.mp hx).2
      · rwa [if_neg hta] at hx
    · rw [if_neg ha] at h
      exact ih _ h

theorem releaseFold_targeted_removed (k u : ℕ) (l : List ℕ) (st : TargetState)
    (t : ℕ) (ht : t ∈ l) (hk : t ≠ k) :
    u ∉ (releaseFold k u st l).targeted t := by
  induction l generalizing st with
  | nil => exact absurd ht (List.not_mem_nil t)
  | cons a l ih =>
    simp only [releaseFold, List.foldl_cons]
    rcases List.mem_cons.mp ht with rfl | htl
    · rw [if_pos hk]
      intro hc
      have hsub := releaseFold_targeted_sub k u l _ t hc
      rw [setTargetBase_targeted_apply, if_pos rfl] at hsub
      simp only [if_neg (Bool.false_ne_true)] at hsub
      exact absurd rfl (mem_listDel.mp hsub).2
    · by_cases ha : a ≠ k
      · rw [if_pos ha]; exact ih _ htl
      · rw [if_neg ha]; exact ih _ htl

theorem symrel_setTarget (st : TargetState) (k : ℕ) (tgt : Bool) (u : ℕ)
    (ro : Bool) (h : SymRel st) : SymRel (setTarget st k tgt u ro) := by
  unfold setTarget
  by_cases hrel : st.targets u ≠ [] ∧ ro = true
  case neg =>
    rw [if_neg hrel]
    exact symrel_setTargetBase st k tgt u h
  case pos =>
    rw [if_pos hrel]
    have hRsym : SymRel (releaseFold k u st (st.targets u)) :=
      symrel_releaseFold k u (st.targets u) st h
    have hRsub : ∀ x, x ∈ (releaseFold k u st (st.targets u)).targets u → x = k := by
      intro x hx
      by_contra hxk
      exact releaseFold_targets_removed k u (st.targets u) st x
        (releaseFold_targets_sub k u (st.targets u) st x hx) hxk hx
    intro t v
    rw [setTargetBase_targeted_apply, setTargetBase_targets_apply]
    by_cases ht : t = k <;> by_cases hv : v = u <;> cases tgt <;>
      simp [Function.update_apply, mem_listAdd, mem_listDel, ht, hv,
        hRsym t v, hRsym k v, hRsym t u] <;>
      exact fun hx => ht (hRsub t hx)

/-!  C8: exclusive targeting with releaseOthers, and symmetry. -/

/-- Claim C8:  Starting from a symmetric state in which user U has no
targets, acquiring token A and then token B with releaseOthers leaves
exactly B in the target set of U, U is a member of the targeted set of
a token exactly when that token is B, and the resulting state is again
symmetric; symmetry is preserved by every setTarget call, which the
proof uses twice for the third conjunct. -/
theorem c8_exclusive_target (st : TargetState) (U A B : ℕ) (hAB : A ≠ B)
    (hsym : SymRel st) (hempty : st.targets U = []) :
    (setTarget (setTarget st A true U true) B true U true).targets U = [B] ∧
    (∀ t, U ∈ (setTarget (setTarget st A true U true) B true U true).targeted t
      ↔ t = B) ∧
    SymRel (setTarget (setTarget st A true U true) B true U true) := by
  have h1 : setTarget st A true U true = setTargetBase st A true U := by
    unfold setTarget
    rw [if_neg (fun hc => hc.1 hempty)]
  have h1tU : (setTargetBase st A true U).targets U = [A] := by
    rw [setTargetBase_targets_apply, if_pos rfl]
    simp [hempty, listAdd]
  have h1ted : ∀ t, t ≠ A →
      (setTargetBase st A true U).targeted t = st.targeted t := by
    intro t ht
    rw [setTargetBase_targeted_apply, if_neg ht]
  have hR : releaseFold B U (setTargetBase st A true U)
        ((setTargetBase st A true U).targets U)
      = setTargetBase (setTargetBase st A true U) A false U := by
    rw [h1tU]
    simp only [releaseFold, List.foldl_cons, List.foldl_nil]
    rw [if_pos hAB]
  have h2 : setTarget (setTargetBase st A true U) B true U true
      = setTargetBase
          { setTargetBase (setTargetBase st A true U) A false U with
            targets := Function.update
              (setTargetBase (setTargetBase st A true U) A false U).targets U [] }
          B true U := by
    unfold setTarget
    rw [if_pos ⟨by rw [h1tU]; simp, rfl⟩, hR]
  refine ⟨?_, ?_, ?_⟩
  · rw [h1, h2, setTargetBase_targets_apply, if_pos rfl]
    simp [Function.update_same, listAdd]
  · intro t
    rw [h1, h2, setTargetBase_targeted_apply]
    by_cases htB : t = B
    · rw [if_pos htB]
      simp [mem_listAdd, htB]
    · rw [if_neg htB]
      show U ∈ (setTargetBase (setTargetBase st A true U) A false U).targeted t
        ↔ t = B
      rw [setTargetBase_targeted_apply]
      by_cases htA : t = A
      · rw [if_pos htA]
        simp only [if_neg Bool.false_ne_true]
        exact iff_of_false (fun hm => (mem_listDel.mp hm).2 rfl) htB
      · rw [if_neg htA, h1ted t htA]
        refine iff_of_false (fun hU => ?_) htB
        have hmem := (hsym t U).mp hU
        rw [hempty] at hmem
        exact List.not_mem_nil t hmem
  · rw [h1]
    exact symrel_setTarget _ B true U true
      (h1 ▸ symrel_setTarget st A true U true hsym)

/-- Witness for claim C8 on the empty symmetric state with user 3 and tokens 1
and 2: after both acquisitions only token 2 is targeted by user 3. -/
theorem c8_exclusive_target_witness :
    (setTarget (setTarget ⟨fun _ => [], fun _ => []⟩ 1 true 3 true) 2 true 3
        true).targets 3 = [2] ∧
    (3 ∈ (setTarget (setTarget ⟨fun _ => [], fun _ => []⟩ 1 true 3 true) 2 true 3
        true).targeted 1 ↔ 1 = 2) :=
  have h := c8_exclusive_target ⟨fun _ => [], fun _ => []⟩ 3 1 2 (by norm_num)
    (fun _ _ => by simp) rfl
  ⟨h.1, h.2.1 1⟩

/-!  C10: a releasing call with releaseOthers releases every target. -/

/-- Claim C10:  A releasing setTarget call with releaseOthers set empties the
whole target set of the user, not only the released pair: afterwards
the user target set is empty and the user has been removed from the
targeted set of every token that was in it, because the release branch
runs regardless of the targeted flag. -/
theorem c10_release_all (st : TargetState) (k u : ℕ) :
    (setTarget st k false u true).targets u = [] ∧
    (∀ t, t ∈ st.targets u → u ∉ (setTarget st k false u true).targeted t) := by
  unfold setTarget
  by_cases hrel : st.targets u ≠ [] ∧ (true : Bool) = true
  case neg =>
    have hemp : st.targets u = [] := by
      by_contra hne
      exact hrel ⟨hne, rfl⟩
    rw [if_neg hrel]
    constructor
    · rw [setTargetBase_targets_apply, if_pos rfl]
      simp [hemp, listDel]
    · intro t ht
      rw [hemp] at ht
      exact absurd ht (List.not_mem_nil t)
  case pos =>
    rw [if_pos hrel]
    constructor
    · rw [setTargetBase_targets_apply, if_pos rfl]
      simp [Function.update_same, listDel]
    · intro t ht
      rw [setTargetBase_targeted_apply]
      by_cases htk : t = k
      · rw [if_pos htk]
        simp only [if_neg Bool.false_ne_true]
        exact fun hm => (mem_listDel.mp hm).2 rfl
      · rw [if_neg htk]
        show u ∉ (releaseFold k u st (st.targets u)).targeted t
        exact releaseFold_targeted_removed k u (st.targets u) st t ht htk

/-- Witness for claim C10: user 3 targets token 5; a releasing call aimed at a
different token 9 with releaseOthers empties the target set of user 3
and removes user 3 from the targeted set of token 5. -/
theorem c10_release_all_witness :
    (setTarget ⟨fun t => if t = 5 then [3] else [], fun v => if v = 3 then [5] else []⟩
        9 false 3 true).targets 3 = [] ∧
    3 ∉ (setTarget ⟨fun t => if t = 5 then [3] else [], fun v => if v = 3 then [5] else []⟩
        9 false 3 true).targeted 5 :=
  have h := c10_release_all
    ⟨fun t => if t = 5 then [3] else [], fun v => if v = 3 then [5] else []⟩ 9 3
  ⟨h.1, h.2 5 (by simp)⟩

end Foundry
